import Mathlib

/-!
Verification of the clockwork-mage simulation engine.

Shallow embedding of the Rust sources (`time.rs`, `action.rs`, `player.rs`,
`rotation.rs`, `simulator.rs`, `main.rs`).  Timestamps, durations and the MP
balance are modelled as `Int` (the i32 values stay far inside the i32 range in
every run the claims quantify over; the one claim that is explicitly about the
i32 representation's upper bound is settled against `Clock.tick`, the
wrap-faithful model below).  The shared interior-mutable `Rc<Clock>` becomes an
explicit `now`/`clock` value threaded through every call.  Rust `assert!`
panics become `Except.error`.
-/

set_option maxRecDepth 100000

namespace CwMage

/-- The closed action catalog of `action.rs`. -/
inductive Action
  | Hit
  | Recharge
deriving DecidableEq

/-- `Action::cast_time` (centiseconds). -/
def Action.cast_time : Action → Int
  | Action.Hit => 150
  | Action.Recharge => 250

/-- `Action::recast_time`. -/
def Action.recast_time : Action → Int
  | _ => 250

/-- `Action::animation_time`. -/
def Action.animation_time : Action → Int
  | _ => 50

/-- `Action::mp_cost` (negative cost restores MP). -/
def Action.mp_cost : Action → Int
  | Action.Hit => 1000
  | Action.Recharge => -2000

/-- `Action::is_ogcd`. -/
def Action.is_ogcd : Action → Bool
  | _ => false

/-- `Cast` from `player.rs`: an in-flight action and when it finishes. -/
structure Cast where
  finish : Int
  action : Action
deriving DecidableEq

/-- `Player` from `player.rs` (the `Rc<Clock>` and logger fields are external;
time is passed explicitly to each operation). -/
structure Player where
  mp : Int
  recast_lock : Option Int
  animation_lock : Option Int
  casting : Option Cast
deriving DecidableEq

/-- `Player::new`. -/
def Player.new : Player :=
  { mp := 10000, recast_lock := none, animation_lock := none, casting := none }

/-- Rust `Some(now) >= opt` under the derived `Option<Timestamp>` ordering:
`None` is below every `Some`. -/
def someGe (now : Int) : Option Int → Bool
  | none => true
  | some t => decide (t ≤ now)

/-- `Player::locked`. -/
def Player.locked (p : Player) (action : Action) (now : Int) : Bool :=
  !((someGe now p.recast_lock || action.is_ogcd) && someGe now p.animation_lock)

/-- `Player::begin`; the two `assert!`s become `Except.error`. -/
def Player.begin (p : Player) (action : Action) (now : Int) : Except String Player :=
  if p.locked action now then
    Except.error "tried to use action when player was in bad state"
  else if p.mp < action.mp_cost then
    Except.error "MP cost is greater than MP"
  else
    Except.ok { p with
      recast_lock := some (now + action.recast_time),
      animation_lock := some (now + action.animation_time),
      casting := some { finish := now + action.cast_time, action := action } }

/-- `Player::perform_action`; the `assert!` becomes `Except.error`. -/
def Player.perform_action (p : Player) (action : Action) : Except String Player :=
  if p.mp < action.mp_cost then
    Except.error "MP cost is greater than MP"
  else
    Except.ok { p with mp := p.mp - action.mp_cost }

/-- `Player::perform`. -/
def Player.perform (p : Player) (now : Int) : Except String (Option Action × Player) :=
  match p.casting with
  | none => Except.ok (none, p)
  | some c =>
    if c.finish ≤ now then
      match Player.perform_action { p with casting := none } c.action with
      | Except.error e => Except.error e
      | Except.ok p2 => Except.ok (some c.action, p2)
    else
      Except.ok (none, p)

/-- The three rotation strategies of `rotation.rs`, as one tagged variant
(`Repeat` carries its action list and cursor). -/
inductive Rotation
  | Empty
  | Repeat (actions : List Action) (current : Nat)
  | EagerHit
deriving DecidableEq

/-- `Repeat::new`. -/
def Repeat.new (actions : List Action) : Rotation :=
  Rotation.Repeat actions 0

/-- `Rotation::action` for each strategy.  The Rust indexing
`self.actions[self.current]` panics when out of bounds, modelled by
`Except.error`. -/
def Rotation.action : Rotation → Player → Int → Except String (Option Action × Rotation)
  | Rotation.Empty, _, _ => Except.ok (none, Rotation.Empty)
  | Rotation.Repeat actions current, player, now =>
    match actions[current]? with
    | none => Except.error "index out of bounds"
    | some a =>
      if player.locked a now then
        Except.ok (none, Rotation.Repeat actions current)
      else
        Except.ok (some a, Rotation.Repeat actions ((current + 1) % actions.length))
  | Rotation.EagerHit, player, now =>
    let a := if Action.Hit.mp_cost ≤ player.mp then Action.Hit else Action.Recharge
    if player.locked a now then
      Except.ok (none, Rotation.EagerHit)
    else
      Except.ok (some a, Rotation.EagerHit)

/-- `EventKind` from `simulator.rs`. -/
inductive EventKind
  | Begin (action : Action)
  | Perform (action : Action)
deriving DecidableEq

/-- `Event` from `simulator.rs`. -/
structure Event where
  kind : EventKind
  timestamp : Int
deriving DecidableEq

/-- `Simulator` state (clock inlined as an `Int`; `Target` is stateless and
omitted). -/
structure Simulator where
  player : Player
  clock : Int
  rotation : Rotation
  event_log : List Event
deriving DecidableEq

/-- `Simulator::new`. -/
def Simulator.new (rotation : Rotation) : Simulator :=
  { player := Player.new, clock := 0, rotation := rotation, event_log := [] }

/-- First phase of `Simulator::step`: `player.perform()`, logging a `Perform`
event at the current timestamp if an action resolved. -/
def performPhase (s : Simulator) : Except String Simulator :=
  match Player.perform s.player s.clock with
  | Except.error e => Except.error e
  | Except.ok (none, p2) => Except.ok { s with player := p2 }
  | Except.ok (some a, p2) =>
    Except.ok { s with player := p2, event_log := s.event_log ++ [{ kind := EventKind.Perform a, timestamp := s.clock }] }

/-- Second phase of `Simulator::step`: `rotation.action(&player)` and, if an
action was returned, `player.begin(action)` plus a `Begin` event at the current
timestamp. -/
def decidePhase (s : Simulator) : Except String Simulator :=
  match Rotation.action s.rotation s.player s.clock with
  | Except.error e => Except.error e
  | Except.ok (none, r2) => Except.ok { s with rotation := r2 }
  | Except.ok (some a, r2) =>
    match Player.begin s.player a s.clock with
    | Except.error e => Except.error e
    | Except.ok p2 =>
      Except.ok { s with player := p2, rotation := r2, event_log := s.event_log ++ [{ kind := EventKind.Begin a, timestamp := s.clock }] }

/-- Third phase of `Simulator::step`: `clock.tick()`. -/
def tickPhase (s : Simulator) : Simulator :=
  { s with clock := s.clock + 1 }

/-- `Simulator::step`: perform, then decide/begin, then tick. -/
def Simulator.step (s : Simulator) : Except String Simulator :=
  match performPhase s with
  | Except.error e => Except.error e
  | Except.ok s1 =>
    match decidePhase s1 with
    | Except.error e => Except.error e
    | Except.ok s2 => Except.ok (tickPhase s2)

/-- `n` consecutive calls of `Simulator::step`. -/
def stepsE : Nat → Simulator → Except String Simulator
  | 0, s => Except.ok s
  | n + 1, s =>
    match Simulator.step s with
    | Except.error e => Except.error e
    | Except.ok s2 => stepsE n s2

/-- A player-level state: the `Player` together with the shared clock it
reads. -/
structure PState where
  player : Player
  clock : Int
deriving DecidableEq

/-- The operations a caller may interleave on a `Player`: `begin`, `perform`,
and advancing the shared clock by one tick. -/
inductive Op
  | begin (action : Action)
  | perform
  | tick
deriving DecidableEq

/-- Run one caller operation; `begin`'s and `perform`'s `assert!`s are the
`Except.error` outcomes of the corresponding `Player` operations. -/
def applyOp (s : PState) : Op → Except String PState
  | Op.begin a =>
    match Player.begin s.player a s.clock with
    | Except.error e => Except.error e
    | Except.ok p2 => Except.ok { s with player := p2 }
  | Op.perform =>
    match Player.perform s.player s.clock with
    | Except.error e => Except.error e
    | Except.ok (_, p2) => Except.ok { s with player := p2 }
  | Op.tick => Except.ok { s with clock := s.clock + 1 }

/-- Run a sequence of caller operations. -/
def runOps (s : PState) : List Op → Except String PState
  | [] => Except.ok s
  | op :: rest =>
    match applyOp s op with
    | Except.error e => Except.error e
    | Except.ok s2 => runOps s2 rest

/-- A fresh player at simulation start. -/
def pInit : PState :=
  { player := Player.new, clock := 0 }

/-- The driving loop of `main.rs`: `while simulator.now().0 <= opt.duration {
simulator.step() }`.  Termination: every successful step advances the clock by
exactly one unit. -/
def mainLoop (d : Int) (s : Simulator) : Except String Simulator :=
  if h : s.clock ≤ d then
    match h2 : Simulator.step s with
    | Except.error e => Except.error e
    | Except.ok s2 => mainLoop d s2
  else
    Except.ok s
termination_by (d + 1 - s.clock).toNat
decreasing_by
  simp_wf
  have hc : s2.clock = s.clock + 1 := by
    unfold Simulator.step at h2
    split at h2
    · exact absurd h2 (by simp)
    · rename_i s1 hp
      split at h2
      · exact absurd h2 (by simp)
      · rename_i s3 hq
        simp only [Except.ok.injEq] at h2
        have h1c : s1.clock = s.clock := by
          unfold performPhase at hp
          split at hp
          · exact absurd hp (by simp)
          · simp only [Except.ok.injEq] at hp; subst hp; rfl
          · simp only [Except.ok.injEq] at hp; subst hp; rfl
        have h3c : s3.clock = s1.clock := by
          unfold decidePhase at hq
          split at hq
          · exact absurd hq (by simp)
          · simp only [Except.ok.injEq] at hq; subst hq; rfl
          · split at hq
            · exact absurd hq (by simp)
            · simp only [Except.ok.injEq] at hq; subst hq; rfl
        rw [← h2]
        show s3.clock + 1 = s.clock + 1
        rw [h3c, h1c]
  omega

/-- The state of a run driven by the `Empty` strategy: only the clock has
moved. -/
def emptySim (t : Int) : Simulator :=
  { player := Player.new, clock := t, rotation := Rotation.Empty, event_log := [] }

/-- The event log of a `Repeat`-over-one-action run after `250 * k + 1` steps
when the action's cast and recast times are both 250: the initial `Begin` at
timestamp 0, then, for each completed cast, a `Perform` and the next `Begin`
at the same timestamp. -/
def backLog (a : Action) : Nat → List Event
  | 0 => [{ kind := EventKind.Begin a, timestamp := 0 }]
  | k + 1 => backLog a k ++
      [{ kind := EventKind.Perform a, timestamp := 250 * ((k : Int) + 1) },
       { kind := EventKind.Begin a, timestamp := 250 * ((k : Int) + 1) }]

/-- The simulator state after `250 * k + 1` steps of the
`Repeat [Recharge]` run. -/
def rechargeState (k : Nat) : Simulator :=
  { player := { mp := 10000 + 2000 * (k : Int), recast_lock := some (250 * ((k : Int) + 1)), animation_lock := some (250 * (k : Int) + 50), casting := some { finish := 250 * ((k : Int) + 1), action := Action.Recharge } },
    clock := 250 * (k : Int) + 1,
    rotation := Rotation.Repeat [Action.Recharge] 0,
    event_log := backLog Action.Recharge k }

/-- Four consecutive decisions of a rotation consulted with a fixed player
view (used for the `Repeat` cyclic-sequence property, mirroring the
`rotation.rs` test that calls `action` four times on the same player). -/
def decisions (p : Player) (now : Int) : Rotation → Nat → Except String (List (Option Action))
  | _, 0 => Except.ok []
  | r, n + 1 =>
    match Rotation.action r p now with
    | Except.error e => Except.error e
    | Except.ok (oa, r2) =>
      match decisions p now r2 n with
      | Except.error e => Except.error e
      | Except.ok l => Except.ok (oa :: l)

/-- The begin-time cast/recast discipline: whenever a cast is in flight its
completion time is no later than the recast-lock expiration (both were set
together by `begin`, and `cast_time ≤ recast_time` for every catalog
action). -/
def castInv (p : Player) : Bool :=
  match p.casting, p.recast_lock with
  | none, _ => true
  | some _, none => false
  | some c, some r => decide (c.finish ≤ r)

/-- i32 two's-complement wrap-around. -/
def wrap32 (n : Int) : Int :=
  (n + 2147483648) % 4294967296 - 2147483648

/-- `Clock::tick` over the raw i32 representation: the `Add<Duration>` impl
adds `1` with i32 wrap-around semantics. -/
def Clock.tick (t : Int) : Int :=
  wrap32 (t + 1)

/-! ### Basic catalog facts -/

theorem is_ogcd_false (a : Action) : a.is_ogcd = false := by
  cases a <;> rfl

theorem cast_le_recast (a : Action) : a.cast_time ≤ a.recast_time := by
  cases a <;> decide

/-! ### Shape lemmas for the player operations -/

theorem begin_ok {p : Player} {a : Action} {now : Int} {p2 : Player}
    (h : Player.begin p a now = Except.ok p2) :
    p2 = { p with recast_lock := some (now + a.recast_time), animation_lock := some (now + a.animation_time), casting := some { finish := now + a.cast_time, action := a } }
    ∧ Player.locked p a now = false ∧ a.mp_cost ≤ p.mp := by
  unfold Player.begin at h
  split at h
  · exact absurd h (by simp)
  · split at h
    · exact absurd h (by simp)
    · simp only [Except.ok.injEq] at h
      rename_i hl hmp
      exact ⟨h.symm, by simpa using hl, by omega⟩

theorem perform_ok_none {p : Player} {now : Int} {p2 : Player}
    (h : Player.perform p now = Except.ok (none, p2)) :
    p2 = p ∧ ∀ c, p.casting = some c → now < c.finish := by
  unfold Player.perform at h
  split at h
  · rename_i hcast
    simp only [Except.ok.injEq, Prod.mk.injEq] at h
    exact ⟨h.2.symm, by intro c hc; rw [hcast] at hc; exact absurd hc (by simp)⟩
  · rename_i c hcast
    split at h
    · split at h
      · exact absurd h (by simp)
      · simp only [Except.ok.injEq, Prod.mk.injEq] at h
        exact absurd h.1 (by simp)
    · rename_i hfin
      simp only [Except.ok.injEq, Prod.mk.injEq] at h
      refine ⟨h.2.symm, ?_⟩
      intro c2 hc2
      rw [hcast] at hc2
      simp only [Option.some.injEq] at hc2
      subst hc2
      omega

theorem perform_ok_some {p : Player} {now : Int} {a : Action} {p2 : Player}
    (h : Player.perform p now = Except.ok (some a, p2)) :
    ∃ c, p.casting = some c ∧ c.action = a ∧ c.finish ≤ now ∧ a.mp_cost ≤ p.mp ∧
      p2 = { p with casting := none, mp := p.mp - a.mp_cost } := by
  unfold Player.perform at h
  split at h
  · exact absurd h (by simp)
  · rename_i c hcast
    split at h
    · rename_i hfin
      split at h
      · exact absurd h (by simp)
      · rename_i p3 hpa
        simp only [Except.ok.injEq, Prod.mk.injEq, Option.some.injEq] at h
        obtain ⟨hac, hp3⟩ := h
        subst hac
        subst hp3
        unfold Player.perform_action at hpa
        split at hpa
        · exact absurd hpa (by simp)
        · rename_i hmp
          have hmp2 : c.action.mp_cost ≤ p.mp := by simpa using hmp
          simp only [Except.ok.injEq] at hpa
          exact ⟨c, hcast, rfl, hfin, hmp2, hpa.symm⟩
    · simp only [Except.ok.injEq, Prod.mk.injEq] at h
      exact absurd h.1 (by simp)

/-- C2: `locked(A)` is false iff the animation lock is unset or expired
(inclusively) and either `A` is off-GCD or the recast lock is unset or expired
(inclusively); and a fresh `Player` is never locked, at any clock time, for
any action. -/
theorem locked_iff_expired :
    (∀ (p : Player) (a : Action) (now : Int),
      Player.locked p a now = false ↔
        ((p.animation_lock = none ∨ ∃ t, p.animation_lock = some t ∧ t ≤ now) ∧
         (a.is_ogcd = true ∨ p.recast_lock = none ∨ ∃ t, p.recast_lock = some t ∧ t ≤ now)))
    ∧ (∀ (a : Action) (now : Int), Player.locked Player.new a now = false) := by
  constructor
  · intro p a now
    cases hr : p.recast_lock <;> cases ha : p.animation_lock <;>
      simp [Player.locked, someGe, hr, ha, is_ogcd_false] <;> tauto
  · intro a now
    rfl

/-- C3: under its two preconditions `begin(A)` sets the recast lock to
`now + recast_time(A)` unconditionally, the animation lock to
`now + animation_time(A)`, records a `Cast` of `A` finishing at
`now + cast_time(A)`, and leaves `mp` unchanged; violating either
precondition is a fatal error, not a silent correction. -/
theorem begin_contract : ∀ (p : Player) (a : Action) (now : Int),
    (Player.locked p a now = false → a.mp_cost ≤ p.mp →
      Player.begin p a now = Except.ok { p with recast_lock := some (now + a.recast_time), animation_lock := some (now + a.animation_time), casting := some { finish := now + a.cast_time, action := a } })
    ∧ ((Player.locked p a now = true ∨ p.mp < a.mp_cost) →
      ∃ e, Player.begin p a now = Except.error e) := by
  intro p a now
  constructor
  · intro hl hmp
    simp [Player.begin, hl, not_lt.mpr hmp]
  · intro h
    by_cases hl : Player.locked p a now = true
    · exact ⟨"tried to use action when player was in bad state", by simp [Player.begin, hl]⟩
    · simp only [Bool.not_eq_true] at hl
      rcases h with h | hmp
      · exact absurd h (by simp [hl])
      · exact ⟨"MP cost is greater than MP", by simp [Player.begin, hl, hmp]⟩

/-- Witness for C3 at a concrete input: a fresh player beginning `Hit` at
time 0. -/
theorem begin_contract_witness :
    Player.begin Player.new Action.Hit 0 = Except.ok { Player.new with recast_lock := some (0 + Action.Hit.recast_time), animation_lock := some (0 + Action.Hit.animation_time), casting := some { finish := 0 + Action.Hit.cast_time, action := Action.Hit } } :=
  (begin_contract Player.new Action.Hit 0).1 (by decide) (by decide)

/-- C4: `perform()` returns `Some(A)` exactly when an in-flight `Cast` of `A`
has completion timestamp ≤ now — clearing the `Cast` and deducting `A`'s cost
— and in every other case returns nothing with the state unchanged. -/
theorem perform_contract : ∀ (p : Player) (now : Int),
    (∀ c, p.casting = some c → c.finish ≤ now → c.action.mp_cost ≤ p.mp →
      Player.perform p now = Except.ok (some c.action, { p with casting := none, mp := p.mp - c.action.mp_cost }))
    ∧ (∀ a p2, Player.perform p now = Except.ok (some a, p2) →
      ∃ c, p.casting = some c ∧ c.action = a ∧ c.finish ≤ now ∧
        p2 = { p with casting := none, mp := p.mp - a.mp_cost })
    ∧ ((p.casting = none ∨ ∀ c, p.casting = some c → now < c.finish) →
      Player.perform p now = Except.ok (none, p)) := by
  intro p now
  refine ⟨?_, ?_, ?_⟩
  · intro c hc hfin hmp
    simp [Player.perform, hc, hfin, Player.perform_action, not_lt.mpr hmp]
  · intro a p2 h
    obtain ⟨c, hc, hac, hfin, _, hp2⟩ := perform_ok_some h
    exact ⟨c, hc, hac, hfin, hp2⟩
  · intro h
    rcases h with hc | hlate
    · simp [Player.perform, hc]
    · cases hc : p.casting with
      | none => simp [Player.perform, hc]
      | some c =>
        have := hlate c hc
        simp [Player.perform, hc, not_le.mpr this]

/-- Witness for C4 at a concrete input: a player one tick past the completion
of a `Hit` cast. -/
theorem perform_contract_witness :
    Player.perform { mp := 10000, recast_lock := some 250, animation_lock := some 50, casting := some { finish := 150, action := Action.Hit } } 150 =
      Except.ok (some Action.Hit, { mp := 9000, recast_lock := some 250, animation_lock := some 50, casting := none }) :=
  (perform_contract { mp := 10000, recast_lock := some 250, animation_lock := some 50, casting := some { finish := 150, action := Action.Hit } } 150).1
    { finish := 150, action := Action.Hit } rfl (by decide) (by decide)

/-- C8: `Repeat` returns nothing and keeps its cursor when the indexed action
is locked, returns the indexed action and advances the cursor cyclically when
it is unlocked, and over [Hit, Hit, Recharge] with an always-unlocked fresh
player yields Hit, Hit, Recharge, Hit across four consecutive decisions. -/
theorem repeat_decide_contract :
    (∀ (actions : List Action) (current : Nat) (p : Player) (now : Int) (a : Action),
      actions[current]? = some a →
        (Player.locked p a now = true →
          Rotation.action (Rotation.Repeat actions current) p now = Except.ok (none, Rotation.Repeat actions current)) ∧
        (Player.locked p a now = false →
          Rotation.action (Rotation.Repeat actions current) p now = Except.ok (some a, Rotation.Repeat actions ((current + 1) % actions.length))))
    ∧ decisions Player.new 0 (Repeat.new [Action.Hit, Action.Hit, Action.Recharge]) 4 =
        Except.ok [some Action.Hit, some Action.Hit, some Action.Recharge, some Action.Hit] := by
  constructor
  · intro actions current p now a hget
    constructor
    · intro hl
      simp [Rotation.action, hget, hl]
    · intro hl
      simp [Rotation.action, hget, hl]
  · rfl

/-- Witness for C8 at a concrete input: `Repeat [Hit]` at cursor 0 with a
fresh (unlocked) player. -/
theorem repeat_decide_contract_witness :
    Rotation.action (Rotation.Repeat [Action.Hit] 0) Player.new 0 =
      Except.ok (some Action.Hit, Rotation.Repeat [Action.Hit] ((0 + 1) % [Action.Hit].length)) :=
  (repeat_decide_contract.1 [Action.Hit] 0 Player.new 0 Action.Hit rfl).2 (by decide)

/-- C10: deciding with a `Repeat` built from the empty action sequence panics
(out-of-bounds index) for every player state and clock time. -/
theorem repeat_empty_oob : ∀ (p : Player) (now : Int),
    Rotation.action (Repeat.new []) p now = Except.error "index out of bounds" := by
  intro p now
  rfl

/-- C9 (amended): each tick sets the timestamp to the i32-wrapped successor;
below the representation's upper bound `i32::MAX = 2147483647` this increases
the timestamp by exactly one unit (never decreases, never skips), but at the
upper bound it wraps around to `i32::MIN = -2147483648`, a decrease. -/
theorem clock_tick_wrap : ∀ t : Int, -2147483648 ≤ t → t < 2147483648 →
    (t < 2147483647 → Clock.tick t = t + 1)
    ∧ (t = 2147483647 → Clock.tick t = -2147483648)
    ∧ (-2147483648 ≤ Clock.tick t ∧ Clock.tick t < 2147483648) := by
  intro t h1 h2
  unfold Clock.tick wrap32
  refine ⟨fun h3 => ?_, fun h3 => ?_, ?_, ?_⟩ <;> omega

/-- Counterexample for C9 as stated: at the representation's upper bound the
tick wraps the timestamp down, so it is not an increase by one unit and the
timestamp decreases. -/
theorem clock_tick_wrap_cex :
    Clock.tick 2147483647 = -2147483648 ∧ ¬ (2147483647 < Clock.tick 2147483647) := by
  constructor <;> decide

/-- Witness for C9 (amended) at a concrete input. -/
theorem clock_tick_wrap_witness : Clock.tick 5 = 5 + 1 :=
  (clock_tick_wrap 5 (by decide) (by decide)).1 (by decide)

/-! ### Shape lemmas for the simulator phases -/

theorem castInv_none {p : Player} (h : p.casting = none) : castInv p = true := by
  simp [castInv, h]

theorem performPhase_ok {s s1 : Simulator} (h : performPhase s = Except.ok s1) :
    s1.clock = s.clock ∧ s1.rotation = s.rotation ∧
    ∃ oa p2, Player.perform s.player s.clock = Except.ok (oa, p2) ∧ s1.player = p2 := by
  unfold performPhase at h
  split at h
  · exact absurd h (by simp)
  · rename_i p2 hp
    simp only [Except.ok.injEq] at h
    subst h
    exact ⟨rfl, rfl, none, p2, hp, rfl⟩
  · rename_i a p2 hp
    simp only [Except.ok.injEq] at h
    subst h
    exact ⟨rfl, rfl, some a, p2, hp, rfl⟩

theorem decidePhase_ok {s s2 : Simulator} (h : decidePhase s = Except.ok s2) :
    s2.clock = s.clock ∧
    (s2.player = s.player ∨ ∃ a, Player.begin s.player a s.clock = Except.ok s2.player) := by
  unfold decidePhase at h
  split at h
  · exact absurd h (by simp)
  · rename_i r2 hr
    simp only [Except.ok.injEq] at h
    subst h
    exact ⟨rfl, Or.inl rfl⟩
  · rename_i a r2 hr
    split at h
    · exact absurd h (by simp)
    · rename_i p2 hb
      simp only [Except.ok.injEq] at h
      subst h
      exact ⟨rfl, Or.inr ⟨a, hb⟩⟩

theorem step_ok {s s2 : Simulator} (h : Simulator.step s = Except.ok s2) :
    ∃ s1 s3, performPhase s = Except.ok s1 ∧ decidePhase s1 = Except.ok s3 ∧ s2 = tickPhase s3 := by
  unfold Simulator.step at h
  split at h
  · exact absurd h (by simp)
  · rename_i s1 hp
    split at h
    · exact absurd h (by simp)
    · rename_i s3 hq
      simp only [Except.ok.injEq] at h
      exact ⟨s1, s3, hp, hq, h.symm⟩

/-- Counterexample for C5 as stated: over arbitrary sequences of `begin`,
`perform` and clock ticks with `begin` only called on unlocked actions, the
lock check alone does not prevent a new `begin` while a `Cast` is in flight.
After `begin(Hit)` and 250 ticks with no `perform`, `Hit` is unlocked again
but the `Cast` (which completed at 150 and was never resolved) is still in
flight. -/
theorem single_cast_lock_cex :
    ¬ (∀ (ops : List Op) (s2 : PState) (a : Action),
        runOps pInit ops = Except.ok s2 → Player.locked s2.player a s2.clock = false →
        s2.player.casting = none) := by
  intro hcl
  have h := hcl (Op.begin Action.Hit :: List.replicate 250 Op.tick)
      { player := { mp := 10000, recast_lock := some 250, animation_lock := some 50, casting := some { finish := 150, action := Action.Hit } }, clock := 250 }
      Action.Hit rfl (by decide)
  exact absurd h (by simp)

/-- C5 (amended): under the engine's own call discipline — within each step
`perform` runs before any `begin`, as `Simulator::step` does — at most one
live `Cast` exists: whenever the rotation could legally begin an action
(`locked` is false after the perform phase), no `Cast` is in flight.  The
discipline is expressed by the invariant `castInv` (a cast's completion never
exceeds the recast-lock expiration), which holds initially and is preserved by
every successful step. -/
theorem single_cast_discipline :
    (∀ r, castInv (Simulator.new r).player = true)
    ∧ (∀ (s s1 : Simulator) (a : Action), castInv s.player = true →
        performPhase s = Except.ok s1 → Player.locked s1.player a s1.clock = false →
        s1.player.casting = none)
    ∧ (∀ (s s2 : Simulator), castInv s.player = true → Simulator.step s = Except.ok s2 →
        castInv s2.player = true) := by
  refine ⟨fun r => rfl, ?_, ?_⟩
  · intro s s1 a hinv hperf hlock
    obtain ⟨hclk, hrot, oa, p2, hp, hply⟩ := performPhase_ok hperf
    cases oa with
    | some a2 =>
      obtain ⟨c, hc, hac, hfin, hmp, hp2⟩ := perform_ok_some hp
      rw [hply, hp2]
    | none =>
      obtain ⟨hp2, hlate⟩ := perform_ok_none hp
      cases hc : s.player.casting with
      | none => rw [hply, hp2]; exact hc
      | some c =>
        exfalso
        have hr : ∃ r, s.player.recast_lock = some r ∧ c.finish ≤ r := by
          unfold castInv at hinv
          rw [hc] at hinv
          cases hrl : s.player.recast_lock with
          | none => rw [hrl] at hinv; simp at hinv
          | some r => rw [hrl] at hinv; simp at hinv; exact ⟨r, rfl, hinv⟩
        obtain ⟨r, hrl, hcr⟩ := hr
        have hlt := hlate c hc
        rw [hply, hp2, hclk] at hlock
        unfold Player.locked at hlock
        rw [hrl, is_ogcd_false] at hlock
        simp [someGe] at hlock
        omega
  · intro s s2 hinv hstep
    obtain ⟨s1, s3, hp, hq, hs2⟩ := step_ok hstep
    obtain ⟨hclk1, hrot1, oa, p2, hper, hply⟩ := performPhase_ok hp
    have hinv1 : castInv s1.player = true := by
      cases oa with
      | none =>
        obtain ⟨he, _⟩ := perform_ok_none hper
        rw [hply, he]
        exact hinv
      | some a =>
        obtain ⟨c, _, _, _, _, hp2⟩ := perform_ok_some hper
        rw [hply, hp2]
        exact castInv_none rfl
    obtain ⟨hclk3, hply3⟩ := decidePhase_ok hq
    have hinv3 : castInv s3.player = true := by
      rcases hply3 with he | ⟨a, hb⟩
      · rw [he]; exact hinv1
      · obtain ⟨hrec, _, _⟩ := begin_ok hb
        rw [hrec]
        simp [castInv]
        have := cast_le_recast a
        omega
    rw [hs2]
    exact hinv3

/-- Witness for C5 (amended) at a concrete input: the fresh Empty-strategy
simulator, whose perform phase leaves the state unchanged. -/
theorem single_cast_discipline_witness :
    (Simulator.new Rotation.Empty).player.casting = none :=
  single_cast_discipline.2.1 (Simulator.new Rotation.Empty) (Simulator.new Rotation.Empty)
    Action.Hit rfl rfl (by decide)

/-- MP is preserved or made nonnegative again by every successfully applied
caller operation, so it stays ≥ 0 along every ok run. -/
theorem runOps_mp_nonneg_aux : ∀ (ops : List Op) (s s2 : PState),
    0 ≤ s.player.mp → runOps s ops = Except.ok s2 → 0 ≤ s2.player.mp := by
  intro ops
  induction ops with
  | nil =>
    intro s s2 h0 h
    simp only [runOps, Except.ok.injEq] at h
    rw [← h]
    exact h0
  | cons op rest ih =>
    intro s s2 h0 h
    unfold runOps at h
    split at h
    · exact absurd h (by simp)
    · rename_i s1 happ
      refine ih s1 s2 ?_ h
      cases op with
      | begin a =>
        simp only [applyOp] at happ
        split at happ
        · exact absurd happ (by simp)
        · rename_i p2 hb
          obtain ⟨hrec, _, _⟩ := begin_ok hb
          simp only [Except.ok.injEq] at happ
          rw [← happ]
          show 0 ≤ p2.mp
          rw [hrec]
          exact h0
      | perform =>
        simp only [applyOp] at happ
        split at happ
        · exact absurd happ (by simp)
        · rename_i oa p2 hper
          simp only [Except.ok.injEq] at happ
          rw [← happ]
          show 0 ≤ p2.mp
          cases oa with
          | none =>
            obtain ⟨he, _⟩ := perform_ok_none hper
            rw [he]
            exact h0
          | some a =>
            obtain ⟨c, _, _, _, hmp, hp2⟩ := perform_ok_some hper
            rw [hp2]
            show 0 ≤ s.player.mp - a.mp_cost
            omega
      | tick =>
        simp only [applyOp, Except.ok.injEq] at happ
        rw [← happ]
        exact h0

/-- C7: starting from the initial balance of 10000, every sequence of caller
operations whose `begin`s satisfy their preconditions keeps the MP balance
≥ 0; over-spending is rejected as a fatal error (by `perform_action` and by
`begin`), never silently clamped. -/
theorem mp_lower_bound :
    (∀ (ops : List Op) (s2 : PState), runOps pInit ops = Except.ok s2 → 0 ≤ s2.player.mp)
    ∧ (∀ (p : Player) (a : Action), p.mp < a.mp_cost →
        (∃ e, Player.perform_action p a = Except.error e) ∧
        (∀ now : Int, ∃ e, Player.begin p a now = Except.error e)) := by
  constructor
  · intro ops s2 h
    exact runOps_mp_nonneg_aux ops pInit s2 (by decide) h
  · intro p a hmp
    constructor
    · exact ⟨"MP cost is greater than MP", by simp [Player.perform_action, hmp]⟩
    · intro now
      by_cases hl : Player.locked p a now = true
      · exact ⟨"tried to use action when player was in bad state", by simp [Player.begin, hl]⟩
      · simp only [Bool.not_eq_true] at hl
        exact ⟨"MP cost is greater than MP", by simp [Player.begin, hl, hmp]⟩

/-- Witness for C7 at a concrete input: one `begin(Hit)` from the initial
state. -/
theorem mp_lower_bound_witness :
    0 ≤ ({ player := { mp := 10000, recast_lock := some 250, animation_lock := some 50, casting := some { finish := 150, action := Action.Hit } }, clock := 0 } : PState).player.mp :=
  mp_lower_bound.1 [Op.begin Action.Hit] _ rfl

/-! ### The Empty-strategy run -/

theorem step_empty (t : Int) : Simulator.step (emptySim t) = Except.ok (emptySim (t + 1)) :=
  rfl

theorem mainLoop_empty : ∀ (d t : Int),
    mainLoop d (emptySim t) = Except.ok (emptySim (max (d + 1) t)) := by
  intro d t
  generalize hn : (d + 1 - t).toNat = n
  induction n generalizing t with
  | zero =>
    have ht : ¬ ((emptySim t).clock ≤ d) := by simp [emptySim]; omega
    rw [mainLoop, dif_neg ht]
    have hm : max (d + 1) t = t := by omega
    rw [hm]
  | succ n ih =>
    have ht : (emptySim t).clock ≤ d := by simp [emptySim]; omega
    rw [mainLoop, dif_pos ht]
    split
    · rename_i e h2
      rw [step_empty] at h2
      exact absurd h2 (by simp)
    · rename_i s2 h2
      rw [step_empty] at h2
      simp only [Except.ok.injEq] at h2
      rw [← h2]
      have hrec := ih (t + 1) (by simp [emptySim] at ht; omega)
      rw [hrec]
      have hm : max (d + 1) (t + 1) = max (d + 1) t := by
        simp [emptySim] at ht
        omega
      rw [hm]

/-- Counterexample for C6 as stated: at the default horizon 100000 the driving
loop steps once at every timestamp ≤ 100000, so the final timestamp read from
the simulator is 100001, not the horizon.  (The event log is indeed empty.) -/
theorem empty_run_cex :
    mainLoop 100000 (Simulator.new Rotation.Empty) = Except.ok (emptySim 100001)
    ∧ ¬ (emptySim 100001).clock = 100000 := by
  constructor
  · have h := mainLoop_empty 100000 0
    rw [show Simulator.new Rotation.Empty = emptySim 0 from rfl, h]
    norm_num
  · decide

/-- C6 (amended): for every nonnegative horizon, driving the simulator with
the `Empty` strategy via the external loop yields an empty event log and a
final timestamp of horizon + 1 (the loop steps at every timestamp ≤ horizon
and exits one tick past it). -/
theorem empty_run : ∀ d : Int, 0 ≤ d →
    Except.map Simulator.event_log (mainLoop d (Simulator.new Rotation.Empty)) = Except.ok []
    ∧ Except.map Simulator.clock (mainLoop d (Simulator.new Rotation.Empty)) = Except.ok (d + 1) := by
  intro d hd
  rw [show Simulator.new Rotation.Empty = emptySim 0 from rfl, mainLoop_empty]
  have hm : max (d + 1) 0 = d + 1 := by omega
  rw [hm]
  exact ⟨rfl, rfl⟩

/-- Witness for C6 (amended) at a concrete input. -/
theorem empty_run_witness :
    Except.map Simulator.event_log (mainLoop 3 (Simulator.new Rotation.Empty)) = Except.ok []
    ∧ Except.map Simulator.clock (mainLoop 3 (Simulator.new Rotation.Empty)) = Except.ok (3 + 1) :=
  empty_run 3 (by decide)

/-! ### The Repeat-over-one-action run -/

theorem step_idle (s : Simulator) (f : Int) (a : Action)
    (hc : s.player.casting = some { finish := f, action := a })
    (hr : s.player.recast_lock = some f)
    (ht : s.clock < f)
    (hrot : s.rotation = Rotation.Repeat [a] 0) :
    Simulator.step s = Except.ok { player := s.player, clock := s.clock + 1, rotation := s.rotation, event_log := s.event_log } := by
  have hperf : Player.perform s.player s.clock = Except.ok (none, s.player) := by
    unfold Player.perform
    rw [hc]
    simp [not_le.mpr ht]
  have hlock : Player.locked s.player a s.clock = true := by
    unfold Player.locked
    rw [hr]
    simp [someGe, is_ogcd_false, not_le.mpr ht]
  have hdec : Rotation.action s.rotation s.player s.clock = Except.ok (none, s.rotation) := by
    rw [hrot]
    simp [Rotation.action, hlock]
  simp only [Simulator.step, performPhase, decidePhase, tickPhase, hperf, hdec]

theorem steps_idle : ∀ (m : Nat) (s : Simulator) (f : Int) (a : Action),
    s.player.casting = some { finish := f, action := a } →
    s.player.recast_lock = some f →
    s.rotation = Rotation.Repeat [a] 0 →
    s.clock + m ≤ f →
    stepsE m s = Except.ok { player := s.player, clock := s.clock + m, rotation := s.rotation, event_log := s.event_log } := by
  intro m
  induction m with
  | zero =>
    intro s f a h1 h2 h3 h4
    simp only [stepsE, Nat.cast_zero, add_zero]
  | succ n ih =>
    intro s f a h1 h2 h3 h4
    have ht : s.clock < f := by omega
    have hstep := step_idle s f a h1 h2 ht h3
    rw [show stepsE (n + 1) s = (match Simulator.step s with
        | Except.error e => Except.error e
        | Except.ok s2 => stepsE n s2) from rfl, hstep]
    show stepsE n { player := s.player, clock := s.clock + 1, rotation := s.rotation, event_log := s.event_log } = _
    have hrec := ih { player := s.player, clock := s.clock + 1, rotation := s.rotation, event_log := s.event_log } f a h1 h2 h3 (by simp; omega)
    rw [hrec]
    have harith : s.clock + 1 + (n : Int) = s.clock + ((n : Int) + 1) := by ring
    simp only [harith, Nat.cast_add, Nat.cast_one]

theorem stepsE_add : ∀ (m n : Nat) (s : Simulator),
    stepsE (m + n) s =
      match stepsE m s with
      | Except.error e => Except.error e
      | Except.ok s2 => stepsE n s2 := by
  intro m
  induction m with
  | zero =>
    intro n s
    simp only [Nat.zero_add, stepsE]
  | succ k ih =>
    intro k2 s
    have harith : k + 1 + k2 = (k + k2) + 1 := by omega
    rw [harith]
    cases hs : Simulator.step s with
    | error e =>
      rw [show stepsE (k + k2 + 1) s = (match Simulator.step s with
          | Except.error e => Except.error e
          | Except.ok s2 => stepsE (k + k2) s2) from rfl, hs]
      rw [show stepsE (k + 1) s = (match Simulator.step s with
          | Except.error e => Except.error e
          | Except.ok s2 => stepsE k s2) from rfl, hs]
    | ok s2 =>
      rw [show stepsE (k + k2 + 1) s = (match Simulator.step s with
          | Except.error e => Except.error e
          | Except.ok s2 => stepsE (k + k2) s2) from rfl, hs]
      rw [show stepsE (k + 1) s = (match Simulator.step s with
          | Except.error e => Except.error e
          | Except.ok s2 => stepsE k s2) from rfl, hs]
      exact ih k2 s2

theorem step_complete (s : Simulator) (f an : Int) (a : Action)
    (hc : s.player.casting = some { finish := f, action := a })
    (hr : s.player.recast_lock = some f)
    (ha : s.player.animation_lock = some an)
    (han : an ≤ f)
    (hclk : s.clock = f)
    (hrot : s.rotation = Rotation.Repeat [a] 0)
    (hmp1 : a.mp_cost ≤ s.player.mp)
    (hmp2 : a.mp_cost ≤ s.player.mp - a.mp_cost) :
    Simulator.step s = Except.ok
      { player := { mp := s.player.mp - a.mp_cost, recast_lock := some (f + a.recast_time), animation_lock := some (f + a.animation_time), casting := some { finish := f + a.cast_time, action := a } },
        clock := f + 1,
        rotation := Rotation.Repeat [a] 0,
        event_log := s.event_log ++ [{ kind := EventKind.Perform a, timestamp := f }, { kind := EventKind.Begin a, timestamp := f }] } := by
  have hperf : Player.perform s.player f = Except.ok (some a, { mp := s.player.mp - a.mp_cost, recast_lock := s.player.recast_lock, animation_lock := s.player.animation_lock, casting := none }) := by
    unfold Player.perform
    rw [hc]
    simp [Player.perform_action, not_lt.mpr hmp1]
  have hlock : Player.locked { mp := s.player.mp - a.mp_cost, recast_lock := s.player.recast_lock, animation_lock := s.player.animation_lock, casting := none } a f = false := by
    unfold Player.locked
    simp [hr, ha, someGe, han]
  have hdec : Rotation.action (Rotation.Repeat [a] 0) { mp := s.player.mp - a.mp_cost, recast_lock := s.player.recast_lock, animation_lock := s.player.animation_lock, casting := none } f = Except.ok (some a, Rotation.Repeat [a] 0) := by
    simp [Rotation.action, hlock]
  have hbeg : Player.begin { mp := s.player.mp - a.mp_cost, recast_lock := s.player.recast_lock, animation_lock := s.player.animation_lock, casting := none } a f = Except.ok { mp := s.player.mp - a.mp_cost, recast_lock := some (f + a.recast_time), animation_lock := some (f + a.animation_time), casting := some { finish := f + a.cast_time, action := a } } := by
    unfold Player.begin
    rw [hlock]
    simp [not_lt.mpr hmp2]
  simp only [Simulator.step, performPhase, decidePhase, tickPhase]
  rw [hclk, hrot]
  simp [hperf, hdec, hbeg, List.append_assoc]

theorem run_recharge : ∀ k : Nat,
    stepsE (250 * k + 1) (Simulator.new (Repeat.new [Action.Recharge])) = Except.ok (rechargeState k) := by
  intro k
  induction k with
  | zero => rfl
  | succ n ih =>
    have hsplit : 250 * (n + 1) + 1 = (250 * n + 1) + 250 := by ring
    rw [hsplit, stepsE_add, ih]
    show stepsE 250 (rechargeState n) = Except.ok (rechargeState (n + 1))
    rw [show (250 : Nat) = 249 + 1 from rfl, stepsE_add]
    have hidle := steps_idle 249 (rechargeState n) (250 * ((n : Int) + 1)) Action.Recharge rfl rfl rfl
      (by show 250 * (n : Int) + 1 + (249 : Nat) ≤ 250 * ((n : Int) + 1); push_cast; ring_nf; omega)
    rw [hidle]
    show stepsE 1 { player := (rechargeState n).player, clock := (rechargeState n).clock + (249 : Nat), rotation := (rechargeState n).rotation, event_log := (rechargeState n).event_log } = _
    have hstep := step_complete
      { player := (rechargeState n).player, clock := (rechargeState n).clock + (249 : Nat), rotation := (rechargeState n).rotation, event_log := (rechargeState n).event_log }
      (250 * ((n : Int) + 1)) (250 * (n : Int) + 50) Action.Recharge
      rfl rfl rfl
      (by push_cast; omega)
      (by show 250 * (n : Int) + 1 + (249 : Nat) = 250 * ((n : Int) + 1); push_cast; ring)
      rfl
      (by show Action.Recharge.mp_cost ≤ 10000 + 2000 * (n : Int); simp [Action.mp_cost]; omega)
      (by show Action.Recharge.mp_cost ≤ 10000 + 2000 * (n : Int) - Action.Recharge.mp_cost; simp [Action.mp_cost]; omega)
    rw [show stepsE 1 { player := (rechargeState n).player, clock := (rechargeState n).clock + (249 : Nat), rotation := (rechargeState n).rotation, event_log := (rechargeState n).event_log } = (match Simulator.step { player := (rechargeState n).player, clock := (rechargeState n).clock + (249 : Nat), rotation := (rechargeState n).rotation, event_log := (rechargeState n).event_log } with
        | Except.error e => Except.error e
        | Except.ok s2 => stepsE 0 s2) from rfl, hstep]
    show Except.ok _ = Except.ok (rechargeState (n + 1))
    simp only [Except.ok.injEq, rechargeState, backLog, Simulator.mk.injEq, Player.mk.injEq, Option.some.injEq, Cast.mk.injEq, Action.mp_cost, Action.recast_time, Action.animation_time, Action.cast_time, and_true, true_and]
    omega

/-- C1: `Simulator::step` is exactly perform-then-decide-then-tick, and as a
consequence, for every action whose cast time equals its recast time, the
`Repeat`-over-that-single-action run re-begins the action on the very same
tick each cast completes: after `250k + 1` steps the event log is the initial
`Begin` at 0 followed, for each completed cast, by a `Perform` and the next
`Begin` sharing one timestamp — no idle tick between back-to-back casts. -/
theorem step_order_back_to_back :
    (∀ s : Simulator, Simulator.step s =
      Except.bind (performPhase s) (fun s1 => Except.map tickPhase (decidePhase s1)))
    ∧ (∀ a : Action, a.cast_time = a.recast_time → ∀ k : Nat,
        Except.map Simulator.event_log (stepsE (250 * k + 1) (Simulator.new (Repeat.new [a]))) =
          Except.ok (backLog a k)) := by
  constructor
  · intro s
    unfold Simulator.step Except.bind Except.map
    cases hp : performPhase s with
    | error e => simp
    | ok s1 =>
      cases hq : decidePhase s1 with
      | error e => simp [hq]
      | ok s2 => simp [hq]
  · intro a ha k
    have haR : a = Action.Recharge := by
      cases a with
      | Hit => exact absurd ha (by decide)
      | Recharge => rfl
    subst haR
    rw [run_recharge]
    rfl

/-- Witness for C1 at a concrete input: `Recharge` has equal cast and recast
times, and one full cycle (251 steps) exhibits the `Perform`/`Begin` pair at
timestamp 250. -/
theorem step_order_back_to_back_witness :
    Action.Recharge.cast_time = Action.Recharge.recast_time
    ∧ Except.map Simulator.event_log (stepsE (250 * 1 + 1) (Simulator.new (Repeat.new [Action.Recharge]))) = Except.ok (backLog Action.Recharge 1) :=
  ⟨by decide, step_order_back_to_back.2 Action.Recharge (by decide) 1⟩

end CwMage
